import Mathlib

/-!
Shallow embedding of the decision-and-orchestration core of the PiCar-X
feedback-loop repository, together with theorems settling the spec claims.

Embedded modules:
* `src/decision/rule_engine.py` (`RuleEngine`, rule parsing, evaluation,
  mutators, `explain_decision`),
* `src/actions/robot_controller.py` (`get_distance`, `has_obstacle`,
  `stop`, `check_safety`),
* `src/core/feedback_loop.py` (`_run_loop` cycle handling),
* `src/decision/llm_engine.py` (`evaluate`, `_parse_response`).

Python floats are modelled as rationals (only ordered-field comparisons
occur); machine wall-clock reads and external collaborators (hardware
drivers, the JSON library, the network inference call) enter the model as
explicit oracle inputs.
-/

/-- A dynamic (Python) value as it occurs in contexts and rule conditions:
`None`, a boolean, a number, or a string. -/
inductive Val where
  | none : Val
  | bool (b : Bool) : Val
  | num (q : ℚ) : Val
  | str (s : String) : Val
deriving DecidableEq, Repr

/-- Numeric view used by Python comparisons: `bool` is an `int` subtype,
so `True == 1` and `True > 0` hold. -/
def Val.toNum : Val → Option ℚ
  | .bool b => some (if b then 1 else 0)
  | .num q => some q
  | _ => Option.none

/-- Python `==` on the values above: numeric kinds compare numerically
(`bool` coerces), strings compare as strings, `None` equals only `None`,
and every remaining cross-kind pair is unequal. -/
def valEq (a b : Val) : Bool :=
  match Val.toNum a, Val.toNum b with
  | some x, some y => x == y
  | _, _ =>
    match a, b with
    | .str s, .str t => s == t
    | .none, .none => true
    | _, _ => false

/-- A rule condition value: either a direct value (exact-equality test) or
an `(operator, threshold)` tuple. -/
inductive CondVal where
  | val (v : Val) : CondVal
  | cmp (op : String) (threshold : Val) : CondVal
deriving DecidableEq, Repr

/-- A context is the Python dict passed to `evaluate`: fact name to value.
`List.lookup` mirrors `dict.get` on the unique-key dicts the code builds. -/
def Context := List (String × Val)

/-- The comparison operators registered in `RuleEngine.__init__`
(`self.operators`). -/
def RuleEngine.knownOps : List String := [">", "<", ">=", "<=", "==", "!="]

/-- Applies one registered operator as `op_func(context_value, threshold)`,
exceptions included: `==`/`!=` are total; the ordering operators are
defined on numeric pairs (with `bool` as `int`) and on string pairs, and
on every remaining cross-kind pair (number vs string, `None` operand, …)
Python's `operator.gt/lt/ge/le` raises `TypeError`, modelled as
`.error ()`; nothing in `evaluate` catches it. -/
def RuleEngine.applyOperatorE (op : String) (a b : Val) : Except Unit Bool :=
  if op = "==" then .ok (valEq a b)
  else if op = "!=" then .ok (!(valEq a b))
  else
    match Val.toNum a, Val.toNum b with
    | some x, some y =>
      .ok (if op = ">" then decide (x > y)
           else if op = "<" then decide (x < y)
           else if op = ">=" then decide (x ≥ y)
           else decide (x ≤ y))
    | _, _ =>
      match a, b with
      | .str s, .str t =>
        .ok (if op = ">" then decide (t < s)
             else if op = "<" then decide (s < t)
             else if op = ">=" then !(decide (s < t))
             else !(decide (t < s)))
      | _, _ => .error ()

/-- The raise-absorbing Bool projection of `applyOperatorE`: the branch on
which Python raises `TypeError` counts as a failed comparison.  It serves
the theorems whose truth does not depend on the raise; the raise itself
is tracked by the `E`-suffixed evaluation chain, and on every input where
the source does not raise the two agree. -/
def RuleEngine.applyOperator (op : String) (a b : Val) : Bool :=
  match RuleEngine.applyOperatorE op a b with
  | .ok r => r
  | .error _ => false

/-- `RuleEngine._evaluate_single_condition` with the `TypeError` of a
cross-kind ordered comparison propagating: a 2-tuple is an operator
comparison (an unknown operator name is logged and fails), anything else
a direct `==` comparison. -/
def RuleEngine.evaluateSingleConditionE (conditionValue : CondVal) (contextValue : Val) :
    Except Unit Bool :=
  match conditionValue with
  | .cmp op threshold =>
    if op ∈ RuleEngine.knownOps then RuleEngine.applyOperatorE op contextValue threshold
    else .ok false
  | .val v => .ok (valEq contextValue v)

/-- `RuleEngine._evaluate_single_condition`, raise-absorbing projection
(see `applyOperator`): a 2-tuple is an operator comparison (unknown
operator names are logged and fail); anything else is a direct `==`
comparison. -/
def RuleEngine.evaluateSingleCondition (conditionValue : CondVal) (contextValue : Val) : Bool :=
  match conditionValue with
  | .cmp op threshold =>
    if op ∈ RuleEngine.knownOps then RuleEngine.applyOperator op contextValue threshold
    else false
  | .val v => valEq contextValue v

/-- `RuleEngine._evaluate_conditions`: every condition must hold (AND
semantics); `context.get(key)` yields `None` both for an absent key and
for an explicit `None` value, and `None` fails the condition. -/
def RuleEngine.evaluateConditions (conditions : List (String × CondVal)) (context : Context) : Bool :=
  conditions.all fun kc =>
    match List.lookup kc.1 context with
    | some v => if v = Val.none then false else RuleEngine.evaluateSingleCondition kc.2 v
    | Option.none => false

/-- The `Rule` dataclass of `rule_engine.py`. -/
structure Rule where
  name : String
  enabled : Bool
  priority : ℚ
  conditions : List (String × CondVal)
  actions : List String
deriving DecidableEq, Repr

/-- An enabled rule all of whose conditions hold against the context. -/
def RuleEngine.matchesRule (r : Rule) (context : Context) : Bool :=
  r.enabled && RuleEngine.evaluateConditions r.conditions context

/-- `RuleEngine.evaluate`: walk `self.rules` in order, skip disabled
rules, return the first fully matching rule's action list, else `[]`. -/
def RuleEngine.evaluate (rules : List Rule) (context : Context) : List String :=
  match rules with
  | [] => []
  | r :: rs =>
    if r.enabled then
      if RuleEngine.evaluateConditions r.conditions context then r.actions
      else RuleEngine.evaluate rs context
    else RuleEngine.evaluate rs context

/-- `RuleEngine._evaluate_conditions` with the raise propagating: the
loop returns `False` at the first failing condition, so a `TypeError`
surfaces only when every earlier condition held and the raising
comparison is actually reached; a missing or `None` fact still returns
`False` before any comparison runs. -/
def RuleEngine.evaluateConditionsE :
    List (String × CondVal) → Context → Except Unit Bool
  | [], _ => .ok true
  | kc :: rest, context =>
    match List.lookup kc.1 context with
    | Option.none => .ok false
    | some v =>
      if v = Val.none then .ok false
      else
        match RuleEngine.evaluateSingleConditionE kc.2 v with
        | .error e => .error e
        | .ok false => .ok false
        | .ok true => RuleEngine.evaluateConditionsE rest context

/-- `RuleEngine.evaluate` with the raise propagating: the walk over
`self.rules` has no exception handler, so a `TypeError` raised while
evaluating a reached rule's conditions escapes to the caller instead of
producing an action list. -/
def RuleEngine.evaluateE (rules : List Rule) (context : Context) :
    Except Unit (List String) :=
  match rules with
  | [] => .ok []
  | r :: rs =>
    if r.enabled then
      match RuleEngine.evaluateConditionsE r.conditions context with
      | .error e => .error e
      | .ok true => .ok r.actions
      | .ok false => RuleEngine.evaluateE rs context
    else RuleEngine.evaluateE rs context

/-- Log messages emitted by the rule-engine mutators, one constructor per
distinct `logger` call site. -/
inductive LogMsg where
  | ruleAdded (name : String) : LogMsg
  | ruleRemoved (name : String) : LogMsg
  | ruleEnabledSet (name : String) (enable : Bool) : LogMsg
  | ruleNotFound (name : String) : LogMsg
deriving DecidableEq, Repr

/-- One insertion step of the stable descending sort: the new element goes
in front of the first element whose priority does not exceed it, so it
lands after every earlier element of equal priority. -/
def insertDesc (x : Rule) : List Rule → List Rule
  | [] => [x]
  | y :: ys => if y.priority > x.priority then y :: insertDesc x ys else x :: y :: ys

/-- Model of `list.sort(key=lambda r: r.priority, reverse=True)`: Python's
sort is stable, and a stable descending-by-priority sort is unique, so the
stable insertion sort below denotes it. -/
def sortDesc : List Rule → List Rule
  | [] => []
  | x :: xs => insertDesc x (sortDesc xs)

/-- The raw per-rule table entry consumed by `RuleEngine._parse_rules`;
`Option` marks keys the dict may omit (`rule_data.get` defaults). -/
structure RuleData where
  enabled : Option Bool
  priority : Option ℚ
  conditions : Option (List (String × CondVal))
  actions : Option (List String)
deriving DecidableEq, Repr

/-- One `Rule(...)` construction inside `_parse_rules`, with the source's
defaults (`enabled=True`, `priority=0.5`, empty conditions/actions). -/
def RuleEngine.parseRuleEntry (entry : String × RuleData) : Rule :=
  { name := entry.1
    enabled := entry.2.enabled.getD true
    priority := entry.2.priority.getD (1/2)
    conditions := entry.2.conditions.getD []
    actions := entry.2.actions.getD [] }

/-- `RuleEngine._parse_rules`: build the rule list in dict insertion order,
then sort by priority descending (stable). -/
def RuleEngine.parseRules (rulesDict : List (String × RuleData)) : List Rule :=
  sortDesc (rulesDict.map RuleEngine.parseRuleEntry)

/-- `RuleEngine.add_rule`: construct an enabled rule, append it, re-sort
(stably), log. -/
def RuleEngine.addRule (rules : List Rule) (name : String) (priority : ℚ)
    (conditions : List (String × CondVal)) (actions : List String) :
    List Rule × List LogMsg :=
  (sortDesc (rules ++ [{ name := name, enabled := true, priority := priority,
                         conditions := conditions, actions := actions }]),
   [LogMsg.ruleAdded name])

/-- `RuleEngine.remove_rule`: keep the rules whose name differs, then log
the removal message — unconditionally, found or not. -/
def RuleEngine.removeRule (rules : List Rule) (name : String) : List Rule × List LogMsg :=
  (rules.filter fun r => r.name != name, [LogMsg.ruleRemoved name])

/-- `RuleEngine.enable_rule`: set the flag on the first rule with the
given name and return; if the loop falls through, log a not-found
warning. -/
def RuleEngine.enableRule (rules : List Rule) (name : String) (enable : Bool) :
    List Rule × List LogMsg :=
  match rules with
  | [] => ([], [LogMsg.ruleNotFound name])
  | r :: rs =>
    if r.name = name then ({ r with enabled := enable } :: rs, [LogMsg.ruleEnabledSet name enable])
    else
      let rest := RuleEngine.enableRule rs name enable
      (r :: rest.1, rest.2)

/-- `RuleEngine.evaluate` as a state-threading method: the translation
carries `self.rules` and the context through the loop, mirroring that the
source body contains no assignment to either. -/
def RuleEngine.evaluateM (rules : List Rule) (context : Context) :
    List Rule × Context × List String :=
  match rules with
  | [] => ([], context, [])
  | r :: rs =>
    if r.enabled then
      if RuleEngine.evaluateConditions r.conditions context then (r :: rs, context, r.actions)
      else
        let rest := RuleEngine.evaluateM rs context
        (r :: rest.1, rest.2.1, rest.2.2)
    else
      let rest := RuleEngine.evaluateM rs context
      (r :: rest.1, rest.2.1, rest.2.2)

/-- `RuleEngine.explain_decision` as a state-threading method; the
explanation is the matched rule's data (`none` renders the
no-rule-matches message), since only the formatting is elided. -/
def RuleEngine.explainDecisionM (rules : List Rule) (context : Context) :
    List Rule × Context × Option Rule :=
  match rules with
  | [] => ([], context, Option.none)
  | r :: rs =>
    if r.enabled then
      if RuleEngine.evaluateConditions r.conditions context then (r :: rs, context, some r)
      else
        let rest := RuleEngine.explainDecisionM rs context
        (r :: rest.1, rest.2.1, rest.2.2)
    else
      let rest := RuleEngine.explainDecisionM rs context
      (r :: rest.1, rest.2.1, rest.2.2)

/-- The rule list is sorted by priority descending. -/
def sortedDesc (l : List Rule) : Prop :=
  l.Pairwise fun a b => b.priority ≤ a.priority

instance (l : List Rule) : Decidable (sortedDesc l) :=
  inferInstanceAs (Decidable (l.Pairwise fun a b : Rule => b.priority ≤ a.priority))

deriving instance DecidableEq for Except

/-- The slice of `ROBOT_CONFIG` read by the safety-relevant methods
(`config.get('obstacle_distance_threshold', 20)` defaults at
construction). -/
structure RobotConfig where
  obstacle_distance_threshold : ℚ
  emergency_stop_distance : ℚ
  max_continuous_movement : ℚ
deriving DecidableEq, Repr

/-- A command issued to the PiCar-X hardware driver. -/
inductive Cmd where
  | pxStop : Cmd
deriving DecidableEq, Repr

/-- `RobotController` state for the sensor/safety methods.  External
collaborators enter as oracles: `ultrasonic` is the outcome of the next
`px.ultrasonic.read()` (value or raised exception), `stop_raises` whether
the next `px.stop()` raises, `now` the wall clock at `check_safety`. -/
structure Robot where
  is_initialized : Bool
  ultrasonic : Except Unit ℚ
  last_distance : ℚ
  movement_start_time : Option ℚ
  now : ℚ
  stop_raises : Bool
  config : RobotConfig
deriving DecidableEq, Repr

/-- `RobotController.get_distance`: 0.0 when uninitialized; on a
successful read, record and return it; a raised read is logged and yields
0.0. -/
def Robot.get_distance (r : Robot) : Robot × ℚ :=
  if r.is_initialized = false then (r, 0)
  else
    match r.ultrasonic with
    | .ok d => ({ r with last_distance := d }, d)
    | .error _ => (r, 0)

/-- `RobotController.has_obstacle`: `threshold or config_default` — Python
`or` falls back on a falsy (`0`/`None`) argument — then
`0 < distance < threshold`. -/
def Robot.has_obstacle (r : Robot) (threshold : Option ℚ) : Robot × Bool :=
  let t := match threshold with
    | some v => if v = 0 then r.config.obstacle_distance_threshold else v
    | Option.none => r.config.obstacle_distance_threshold
  let rd := r.get_distance
  (rd.1, decide (0 < rd.2 ∧ rd.2 < t))

/-- `RobotController.stop`: a no-op when uninitialized; otherwise the
`px.stop()` command is issued, and the bookkeeping fields update unless
that call raised (the handler only logs). -/
def Robot.stop (r : Robot) : Robot × List Cmd :=
  if r.is_initialized = false then (r, [])
  else if r.stop_raises then (r, [Cmd.pxStop])
  else ({ r with movement_start_time := Option.none }, [Cmd.pxStop])

/-- Warnings logged by `check_safety`, one per branch. -/
inductive SafetyLog where
  | emergencyObstacle : SafetyLog
  | maxMovementReached : SafetyLog
deriving DecidableEq, Repr

/-- Result of `RobotController.check_safety`: updated state, hardware
commands issued, warnings logged, and the returned safe flag. -/
structure SafetyResult where
  robot : Robot
  cmds : List Cmd
  logs : List SafetyLog
  safe : Bool
deriving DecidableEq, Repr

/-- `RobotController.check_safety`: emergency obstacle check
(`has_obstacle(emergency_stop_distance)`) forces a stop and returns
`False`; otherwise, if a movement is engaged (`if self.movement_start_time:`
is falsy for `None` and for a zero timestamp) longer than
`max_continuous_movement`, likewise; else `True`. -/
def Robot.check_safety (r : Robot) : SafetyResult :=
  let ho := r.has_obstacle (some r.config.emergency_stop_distance)
  if ho.2 then
    let st := ho.1.stop
    { robot := st.1, cmds := st.2, logs := [SafetyLog.emergencyObstacle], safe := false }
  else
    match ho.1.movement_start_time with
    | some t0 =>
      if t0 = 0 then { robot := ho.1, cmds := [], logs := [], safe := true }
      else if ho.1.now - t0 > ho.1.config.max_continuous_movement then
        let st := ho.1.stop
        { robot := st.1, cmds := st.2, logs := [SafetyLog.maxMovementReached], safe := false }
      else { robot := ho.1, cmds := [], logs := [], safe := true }
    | Option.none => { robot := ho.1, cmds := [], logs := [], safe := true }

/-- Metrics state of `FeedbackLoop` relevant to the cycle loop. -/
structure LoopSt where
  is_running : Bool
  loop_count : Nat
  avg_loop_time : ℚ
deriving DecidableEq, Repr

/-- Observable effects of one pass through the `_run_loop` body. -/
inductive Effect where
  | logCycleError : Effect
  | logPeriodic : Effect
  | logOverrun : Effect
  | sleep (t : ℚ) : Effect
deriving DecidableEq, Repr

/-- Oracle for one cycle: the outcome of each phase call (the collaborators
behind perceive/act/evaluate are external) and the measured body time. -/
structure CycleIn where
  perceiveR : Except Unit Unit
  decideR : Except Unit (List String)
  actR : Except Unit Unit
  evaluateR : Except Unit Unit
  loopTime : ℚ
deriving DecidableEq, Repr

/-- The four phase calls of the `try` block, sequenced: a raise in any
phase aborts the rest of the block. -/
def cyclePhases (c : CycleIn) : Except Unit Unit := do
  let _ ← c.perceiveR
  let _ ← c.decideR
  let _ ← c.actR
  let _ ← c.evaluateR
  pure ()

/-- `LOOP_FREQUENCY` from `config/settings.py`. -/
def LOOP_FREQUENCY : ℚ := 1

/-- `loop_period = 1.0 / self.loop_frequency`. -/
def loopPeriod : ℚ := 1 / LOOP_FREQUENCY

/-- The `time.sleep(0.5)` recovery pause of the `except` handler. -/
def recoveryDelay : ℚ := 1/2

/-- One iteration of the `while` body of `FeedbackLoop._run_loop`: run the
four phases; on success update `loop_count` and the running average, log
every 50th cycle, and sleep the residual period (or log an overrun); on a
raised exception log it and sleep the recovery delay, leaving the metrics
untouched. -/
def runCycle (c : CycleIn) (s : LoopSt) : LoopSt × List Effect :=
  match cyclePhases c with
  | .error _ => (s, [Effect.logCycleError, Effect.sleep recoveryDelay])
  | .ok _ =>
    let n := s.loop_count + 1
    let avg := (s.avg_loop_time * ((n : ℚ) - 1) + c.loopTime) / (n : ℚ)
    let s' := { s with loop_count := n, avg_loop_time := avg }
    let periodic := if n % 50 = 0 then [Effect.logPeriodic] else []
    let sleepTime := loopPeriod - c.loopTime
    let tail := if sleepTime > 0 then [Effect.sleep sleepTime] else [Effect.logOverrun]
    (s', periodic ++ tail)

/-- `FeedbackLoop._run_loop` over a finite trace of cycle oracles:
`while self.is_running` re-checks the flag at the top of every
iteration. -/
def runLoop : List CycleIn → LoopSt → LoopSt × List Effect
  | [], s => (s, [])
  | c :: cs, s =>
    if s.is_running then
      let step := runCycle c s
      let rest := runLoop cs step.1
      (rest.1, step.2 ++ rest.2)
    else (s, [])

/-- A JSON value as produced by `json.loads` on the reasoner's reply. -/
inductive JVal where
  | null : JVal
  | bool (b : Bool) : JVal
  | num (q : ℚ) : JVal
  | str (s : String) : JVal
  | arr (xs : List JVal) : JVal
  | obj (fields : List (String × JVal)) : JVal

/-- First binding of a key in a JSON object, mirroring `dict.get`. -/
def JVal.lookupField (key : String) : List (String × JVal) → Option JVal
  | [] => Option.none
  | f :: fs => if f.1 = key then some f.2 else JVal.lookupField key fs

/-- `LLMEngine._parse_response`: a `json.JSONDecodeError` (modelled as the
parse yielding no value) is caught and yields `[]`; on a decoded object,
`data.get('actions', [])` is returned raw; on any other decoded value the
`.get` attribute access raises, which the model signals as `.error` for
`evaluate`'s catch-all to absorb. -/
def LLMEngine.parseResponse (decoded : Option JVal) : Except Unit JVal :=
  match decoded with
  | Option.none => .ok (JVal.arr [])
  | some (JVal.obj fields) => .ok ((JVal.lookupField "actions" fields).getD (JVal.arr []))
  | some _ => .error ()

/-- The `LLMEngine` pieces `evaluate` reads, with its two external
collaborators as oracles: the provider inference calls (reply text or
raised exception) and the JSON decoder `json.loads` (`none` = decode
error). `clientInitialized` is `self.client is not None`. -/
structure LLMBackend where
  clientInitialized : Bool
  provider : String
  callOpenai : Except Unit String
  callAnthropic : Except Unit String
  loads : String → Option JVal

/-- `LLMEngine.evaluate`: `[]` if the client never initialized (missing
library or credential); otherwise call the provider inside a `try` whose
`except` converts any raised exception into `[]`, an unknown provider
returning `[]` directly; the decoded `actions` value is returned. -/
def LLMEngine.evaluate (e : LLMBackend) : JVal :=
  if e.clientInitialized = false then JVal.arr []
  else
    let body : Except Unit JVal :=
      if e.provider = "openai" then
        e.callOpenai.bind fun response => LLMEngine.parseResponse (e.loads response)
      else if e.provider = "anthropic" then
        e.callAnthropic.bind fun response => LLMEngine.parseResponse (e.loads response)
      else .ok (JVal.arr [])
    match body with
    | .ok v => v
    | .error _ => JVal.arr []

theorem mem_insertDesc {a x : Rule} {l : List Rule} :
    a ∈ insertDesc x l ↔ a = x ∨ a ∈ l := by
  induction l with
  | nil => simp [insertDesc]
  | cons y ys ih =>
    by_cases h : y.priority > x.priority
    · simp only [insertDesc, if_pos h, List.mem_cons, ih]
      tauto
    · simp only [insertDesc, if_neg h, List.mem_cons]

theorem insertDesc_sorted {x : Rule} {l : List Rule} (h : sortedDesc l) :
    sortedDesc (insertDesc x l) := by
  induction l with
  | nil => simp [insertDesc, sortedDesc]
  | cons y ys ih =>
    rw [sortedDesc, List.pairwise_cons] at h
    by_cases hxy : y.priority > x.priority
    · rw [insertDesc, if_pos hxy, sortedDesc, List.pairwise_cons]
      refine ⟨fun z hz => ?_, ih h.2⟩
      rcases mem_insertDesc.mp hz with hzx | hzys
      · exact hzx ▸ le_of_lt hxy
      · exact h.1 z hzys
    · rw [insertDesc, if_neg hxy, sortedDesc, List.pairwise_cons]
      push_neg at hxy
      refine ⟨fun z hz => ?_, ?_⟩
      · rcases List.mem_cons.mp hz with hzy | hzys
        · exact hzy ▸ hxy
        · exact le_trans (h.1 z hzys) hxy
      · rw [List.pairwise_cons]
        exact ⟨h.1, h.2⟩

theorem sortDesc_sorted (l : List Rule) : sortedDesc (sortDesc l) := by
  induction l with
  | nil => simp [sortDesc, sortedDesc]
  | cons x xs ih => exact insertDesc_sorted ih

theorem insertDesc_eq_cons {x : Rule} {l : List Rule}
    (h : ∀ z ∈ l, z.priority ≤ x.priority) : insertDesc x l = x :: l := by
  cases l with
  | nil => rfl
  | cons y ys =>
    have : ¬ y.priority > x.priority := not_lt.mpr (h y (List.mem_cons_self y ys))
    rw [insertDesc, if_neg this]

theorem sortDesc_eq_self {l : List Rule} (h : sortedDesc l) : sortDesc l = l := by
  induction l with
  | nil => rfl
  | cons x xs ih =>
    rw [sortedDesc, List.pairwise_cons] at h
    rw [sortDesc, ih h.2, insertDesc_eq_cons h.1]
theorem filter_priority_insertDesc (p : ℚ) (x : Rule) (l : List Rule) :
    (insertDesc x l).filter (fun r => r.priority == p) =
      if x.priority = p then x :: l.filter (fun r => r.priority == p)
      else l.filter (fun r => r.priority == p) := by
  induction l with
  | nil =>
    by_cases hx : x.priority = p <;>
      simp [insertDesc, List.filter_cons, beq_iff_eq, hx]
  | cons y ys ih =>
    by_cases hxy : y.priority > x.priority
    · rw [insertDesc, if_pos hxy]
      by_cases hx : x.priority = p
      · have hy : ¬ (y.priority = p) := by
          rw [← hx]; exact ne_of_gt hxy
        simp [List.filter_cons, beq_iff_eq, hx, hy, ih]
      · by_cases hy : y.priority = p <;>
          simp [List.filter_cons, beq_iff_eq, hx, hy, ih]
    · rw [insertDesc, if_neg hxy]
      by_cases hx : x.priority = p <;>
        simp [List.filter_cons, beq_iff_eq, hx]

theorem filter_priority_sortDesc (p : ℚ) (l : List Rule) :
    (sortDesc l).filter (fun r => r.priority == p) = l.filter (fun r => r.priority == p) := by
  induction l with
  | nil => rfl
  | cons x xs ih =>
    rw [sortDesc, filter_priority_insertDesc]
    by_cases hx : x.priority = p <;>
      simp [List.filter_cons, beq_iff_eq, hx, ih]

theorem filter_insertDesc {q : Rule → Bool} {x : Rule} {l : List Rule} (h : sortedDesc l) :
    (insertDesc x l).filter q =
      if q x then insertDesc x (l.filter q) else l.filter q := by
  induction l with
  | nil =>
    by_cases hx : q x <;> simp [insertDesc, List.filter_cons, hx]
  | cons y ys ih =>
    rw [sortedDesc, List.pairwise_cons] at h
    by_cases hxy : y.priority > x.priority
    · rw [insertDesc, if_pos hxy]
      by_cases hy : q y
      · rw [List.filter_cons, if_pos hy, List.filter_cons, if_pos hy, ih h.2]
        by_cases hx : q x
        · rw [if_pos hx, if_pos hx, insertDesc, if_pos hxy]
        · rw [if_neg hx, if_neg hx]
      · rw [List.filter_cons, if_neg hy, List.filter_cons, if_neg hy, ih h.2]
    · rw [insertDesc, if_neg hxy]
      push_neg at hxy
      by_cases hx : q x
      · rw [List.filter_cons, if_pos hx, if_pos hx, List.filter_cons]
        by_cases hy : q y
        · rw [if_pos hy, insertDesc, if_neg (not_lt.mpr hxy)]
        · rw [if_neg hy]
          have hall : ∀ z ∈ ys.filter q, z.priority ≤ x.priority := fun z hz =>
            le_trans (h.1 z (List.mem_of_mem_filter hz)) hxy
          rw [insertDesc_eq_cons hall]
      · rw [List.filter_cons, if_neg hx, if_neg hx]

theorem filter_sortDesc (q : Rule → Bool) (l : List Rule) :
    (sortDesc l).filter q = sortDesc (l.filter q) := by
  induction l with
  | nil => rfl
  | cons x xs ih =>
    rw [sortDesc, filter_insertDesc (sortDesc_sorted xs), ih]
    by_cases hx : q x <;> simp [List.filter_cons, hx, sortDesc]

/-- C4: the rule list is sorted by priority descending with ties kept in
insertion order (each equal-priority sublist is left in its original
order), both after `_parse_rules` builds it from the rule table and after
any `add_rule`, which appends the new rule and stably re-sorts. -/
theorem C4_sort_invariant (rulesDict : List (String × RuleData)) (l : List Rule)
    (name : String) (priority : ℚ) (conditions : List (String × CondVal))
    (actions : List String) :
    sortedDesc (RuleEngine.parseRules rulesDict) ∧
    (∀ p : ℚ, (RuleEngine.parseRules rulesDict).filter (fun r => r.priority == p) =
      (rulesDict.map RuleEngine.parseRuleEntry).filter (fun r => r.priority == p)) ∧
    sortedDesc (RuleEngine.addRule l name priority conditions actions).1 ∧
    (∀ p : ℚ, (RuleEngine.addRule l name priority conditions actions).1.filter
        (fun r => r.priority == p) =
      (l ++ [({ name := name, enabled := true, priority := priority,
                conditions := conditions, actions := actions } : Rule)]).filter
        (fun r => r.priority == p)) :=
  ⟨sortDesc_sorted _, fun p => filter_priority_sortDesc p _,
   sortDesc_sorted _, fun p => filter_priority_sortDesc p _⟩

theorem RuleEngine.evaluate_cons (r : Rule) (rs : List Rule) (context : Context) :
    RuleEngine.evaluate (r :: rs) context =
      if RuleEngine.matchesRule r context = true then r.actions
      else RuleEngine.evaluate rs context := by
  rw [RuleEngine.evaluate, RuleEngine.matchesRule]
  cases he : r.enabled <;>
    cases hc : RuleEngine.evaluateConditions r.conditions context <;> simp [he, hc]

/-- On a priority-descending rule list, the raise-absorbing `evaluate`
either returns `[]` with no enabled rule fully matching the context, or
returns the action list of one enabled, fully matching rule whose
priority no other matching rule exceeds. -/
theorem evaluate_highest_priority_of_sorted (rules : List Rule) (context : Context)
    (hsorted : sortedDesc rules) :
    (RuleEngine.evaluate rules context = [] ∧
      ∀ r ∈ rules, RuleEngine.matchesRule r context = false) ∨
    (∃ r ∈ rules, RuleEngine.matchesRule r context = true ∧
      RuleEngine.evaluate rules context = r.actions ∧
      ∀ r' ∈ rules, RuleEngine.matchesRule r' context = true →
        r'.priority ≤ r.priority) := by
  induction rules with
  | nil => exact Or.inl ⟨rfl, by simp⟩
  | cons r rs ih =>
    rw [sortedDesc, List.pairwise_cons] at hsorted
    by_cases hm : RuleEngine.matchesRule r context = true
    · refine Or.inr ⟨r, List.mem_cons_self r rs, hm, ?_, ?_⟩
      · rw [RuleEngine.evaluate_cons, if_pos hm]
      · intro r' hr' _
        rcases List.mem_cons.mp hr' with h | h
        · exact h ▸ le_refl _
        · exact hsorted.1 r' h
    · have hm' : RuleEngine.matchesRule r context = false := by
        simpa using hm
      rcases ih hsorted.2 with ⟨hev, hall⟩ | ⟨r', hmem, hm'', hev, hmax⟩
      · refine Or.inl ⟨?_, ?_⟩
        · rw [RuleEngine.evaluate_cons, if_neg hm, hev]
        · intro z hz
          rcases List.mem_cons.mp hz with h | h
          · exact h ▸ hm'
          · exact hall z h
      · refine Or.inr ⟨r', List.mem_cons_of_mem r hmem, hm'', ?_, ?_⟩
        · rw [RuleEngine.evaluate_cons, if_neg hm, hev]
        · intro z hz hzm
          rcases List.mem_cons.mp hz with h | h
          · exact absurd (h ▸ hzm) hm
          · exact hmax z h hzm

theorem evaluateSingleConditionE_ok {cv : CondVal} {v : Val} {b : Bool}
    (h : RuleEngine.evaluateSingleConditionE cv v = .ok b) :
    RuleEngine.evaluateSingleCondition cv v = b := by
  cases cv with
  | val w =>
    rw [RuleEngine.evaluateSingleConditionE] at h
    rw [RuleEngine.evaluateSingleCondition]
    exact Except.ok.inj h
  | cmp op th =>
    rw [RuleEngine.evaluateSingleConditionE] at h
    rw [RuleEngine.evaluateSingleCondition]
    by_cases hop : op ∈ RuleEngine.knownOps
    · rw [if_pos hop] at h
      rw [if_pos hop, RuleEngine.applyOperator, h]
    · rw [if_neg hop] at h
      rw [if_neg hop]
      exact Except.ok.inj h

theorem evaluateConditionsE_ok {cs : List (String × CondVal)} {context : Context} {b : Bool}
    (h : RuleEngine.evaluateConditionsE cs context = .ok b) :
    RuleEngine.evaluateConditions cs context = b := by
  induction cs generalizing b with
  | nil =>
    rw [RuleEngine.evaluateConditions]
    simp only [List.all_nil]
    exact Except.ok.inj h
  | cons kc rest ih =>
    rw [RuleEngine.evaluateConditionsE] at h
    have hgoal : RuleEngine.evaluateConditions (kc :: rest) context =
        ((match List.lookup kc.1 context with
          | some v =>
            if v = Val.none then false else RuleEngine.evaluateSingleCondition kc.2 v
          | Option.none => false) && RuleEngine.evaluateConditions rest context) := rfl
    rw [hgoal]
    rcases hl : List.lookup kc.1 context with _ | v
    · rw [hl] at h
      rw [← Except.ok.inj (h : Except.ok false = Except.ok b)]
      rfl
    · rw [hl] at h
      replace h : (if v = Val.none then Except.ok false
          else match RuleEngine.evaluateSingleConditionE kc.2 v with
            | Except.error e => Except.error e
            | Except.ok false => Except.ok false
            | Except.ok true => RuleEngine.evaluateConditionsE rest context) =
          Except.ok b := h
      show ((if v = Val.none then false else RuleEngine.evaluateSingleCondition kc.2 v) &&
        RuleEngine.evaluateConditions rest context) = b
      by_cases hv : v = Val.none
      · rw [if_pos hv] at h
        rw [if_pos hv, ← Except.ok.inj h]
        rfl
      · rw [if_neg hv] at h
        rw [if_neg hv]
        rcases hs : RuleEngine.evaluateSingleConditionE kc.2 v with e | bc
        · rw [hs] at h
          exact absurd (h : Except.error e = Except.ok b) (by simp)
        · rw [hs] at h
          cases bc with
          | false =>
            rw [evaluateSingleConditionE_ok hs,
              ← Except.ok.inj (h : Except.ok false = Except.ok b)]
            rfl
          | true =>
            rw [evaluateSingleConditionE_ok hs]
            simp only [Bool.true_and]
            exact ih (h : RuleEngine.evaluateConditionsE rest context = Except.ok b)

theorem evaluateE_eq_ok {rules : List Rule} {context : Context}
    (h : RuleEngine.evaluateE rules context ≠ .error ()) :
    RuleEngine.evaluateE rules context = .ok (RuleEngine.evaluate rules context) := by
  induction rules with
  | nil => rfl
  | cons r rs ih =>
    rw [RuleEngine.evaluateE] at h ⊢
    rw [RuleEngine.evaluate]
    cases he : r.enabled with
    | false =>
      simp only [he, Bool.false_eq_true, if_false] at h ⊢
      exact ih h
    | true =>
      simp only [he, if_true] at h ⊢
      rcases hc : RuleEngine.evaluateConditionsE r.conditions context with e | bc
      · cases e
        rw [hc] at h
        exact absurd rfl h
      · rw [hc] at h
        cases bc with
        | true =>
          rw [evaluateConditionsE_ok hc]
          simp
        | false =>
          rw [evaluateConditionsE_ok hc]
          simp only [Bool.false_eq_true, if_false]
          exact ih h

/-- The `avoid_obstacle` rule of the property-test scenario in the spec. -/
def avoidObstacleRule : Rule :=
  { name := "avoid_obstacle", enabled := true, priority := 1,
    conditions := [("obstacle_distance", CondVal.cmp "<" (Val.num 20))],
    actions := ["stop", "turn_random", "move_forward"] }

/-- The `explore` rule of the property-test scenario in the spec; its
priority is the rational 3/10, written in normal form so that kernel
evaluation of comparisons on it proceeds. -/
def exploreRule : Rule :=
  { name := "explore", enabled := true, priority := ⟨3, 10, by decide, by decide⟩,
    conditions := [("idle_time", CondVal.cmp ">" (Val.num 5))],
    actions := ["scan_environment", "move_forward", "turn_random"] }

/-- The scenario context `{obstacle_distance: 15, idle_time: 10}`. -/
def demoContext : Context :=
  [("obstacle_distance", Val.num 15), ("idle_time", Val.num 10)]

/-- A rule whose ordered comparison pairs the string fact `voice_text`
(present in every context the `ContextBuilder` produces) with a numeric
threshold, so that reaching it makes `operator.gt` raise `TypeError`. -/
def badCmpRule : Rule :=
  { name := "bad_cmp", enabled := true, priority := 1,
    conditions := [("voice_text", CondVal.cmp ">" (Val.num 5))],
    actions := ["stop"] }

/-- A context carrying the string fact the bad rule compares. -/
def strFactContext : Context := [("voice_text", Val.str "hello")]

/-- C1 counterexample: on a rule whose ordered comparison is reached with
a string context value against a numeric threshold, the faithful
`evaluate` raises `TypeError` and so returns no action list at all — in
particular not what the raise-absorbing projection computes — refuting
the claim quantified over every context and rule set. -/
theorem C1_counterexample :
    RuleEngine.evaluateE [badCmpRule] strFactContext = Except.error () ∧
    RuleEngine.evaluateE [badCmpRule] strFactContext ≠
      Except.ok (RuleEngine.evaluate [badCmpRule] strFactContext) := by
  refine ⟨rfl, ?_⟩
  decide

/-- C1 (amended): for every context C and rule set R such that the rule
list is priority-descending (the engine's maintained invariant) and
evaluating R against C raises no `TypeError`, `evaluate(C)` returns the
action list of the highest-priority enabled rule whose every condition
holds against C (AND semantics over the (fact, predicate) pairs, iterated
in priority-descending order), and the empty list if no enabled rule
fully matches; at most one rule's actions are returned per call.  Without
the no-raise hypothesis the call propagates the `TypeError` instead of
returning. -/
theorem C1_evaluate_highest_priority_wellTyped (rules : List Rule) (context : Context)
    (hsorted : sortedDesc rules)
    (hok : RuleEngine.evaluateE rules context ≠ Except.error ()) :
    (RuleEngine.evaluateE rules context = Except.ok [] ∧
      ∀ r ∈ rules, RuleEngine.matchesRule r context = false) ∨
    (∃ r ∈ rules, RuleEngine.matchesRule r context = true ∧
      RuleEngine.evaluateE rules context = Except.ok r.actions ∧
      ∀ r' ∈ rules, RuleEngine.matchesRule r' context = true →
        r'.priority ≤ r.priority) := by
  have hb := evaluateE_eq_ok hok
  rcases evaluate_highest_priority_of_sorted rules context hsorted with
    ⟨he, hall⟩ | ⟨r, hmem, hm, he, hmax⟩
  · exact Or.inl ⟨by rw [hb, he], hall⟩
  · exact Or.inr ⟨r, hmem, hm, by rw [hb, he], hmax⟩

theorem C1_wellTyped_witness :
    (RuleEngine.evaluateE [avoidObstacleRule, exploreRule] demoContext = Except.ok [] ∧
      ∀ r ∈ [avoidObstacleRule, exploreRule],
        RuleEngine.matchesRule r demoContext = false) ∨
    (∃ r ∈ [avoidObstacleRule, exploreRule],
      RuleEngine.matchesRule r demoContext = true ∧
      RuleEngine.evaluateE [avoidObstacleRule, exploreRule] demoContext =
        Except.ok r.actions ∧
      ∀ r' ∈ [avoidObstacleRule, exploreRule],
        RuleEngine.matchesRule r' demoContext = true → r'.priority ≤ r.priority) :=
  C1_evaluate_highest_priority_wellTyped [avoidObstacleRule, exploreRule] demoContext
    (by decide) (by decide)

/-- C5: a condition keyed on a fact name absent from the context fails,
whatever the predicate shape, and the whole rule is disqualified. -/
theorem C5_missing_fact_never_matches (r : Rule) (context : Context)
    (k : String) (cv : CondVal)
    (hmem : (k, cv) ∈ r.conditions)
    (habs : List.lookup k context = Option.none) :
    RuleEngine.evaluateConditions r.conditions context = false ∧
    RuleEngine.matchesRule r context = false := by
  have hcond : RuleEngine.evaluateConditions r.conditions context = false := by
    rw [RuleEngine.evaluateConditions]
    apply List.all_eq_false.mpr
    exact ⟨(k, cv), hmem, by simp [habs]⟩
  exact ⟨hcond, by rw [RuleEngine.matchesRule, hcond, Bool.and_false]⟩

theorem C5_witness :
    RuleEngine.evaluateConditions
        [("ghost_fact", CondVal.cmp ">" (Val.num 1))] demoContext = false ∧
    RuleEngine.matchesRule
      { avoidObstacleRule with
        conditions := [("ghost_fact", CondVal.cmp ">" (Val.num 1))] } demoContext = false :=
  ⟨(C5_missing_fact_never_matches
     { avoidObstacleRule with conditions := [("ghost_fact", CondVal.cmp ">" (Val.num 1))] }
     demoContext "ghost_fact" (CondVal.cmp ">" (Val.num 1)) (by decide) (by decide)).1,
   (C5_missing_fact_never_matches
     { avoidObstacleRule with conditions := [("ghost_fact", CondVal.cmp ">" (Val.num 1))] }
     demoContext "ghost_fact" (CondVal.cmp ">" (Val.num 1)) (by decide) (by decide)).2⟩

/-- A rule used to exercise the mutators at a concrete input. -/
def dupRule : Rule :=
  { name := "dup", enabled := true, priority := 1, conditions := [], actions := ["x"] }

/-- C6 counterexample: adding a rule named `dup` to an engine that already
holds a rule named `dup` and then removing that name deletes BOTH rules
(`remove_rule` filters every rule with the name), so `evaluate` on the
fixed empty context is `[]` afterwards instead of the prior `["x"]`. -/
theorem C6_counterexample :
    RuleEngine.evaluate
        (RuleEngine.removeRule
          (RuleEngine.addRule [dupRule] "dup" 0 [] ["y"]).1 "dup").1 ([] : Context) ≠
      RuleEngine.evaluate [dupRule] ([] : Context) := by
  decide

/-- C6 (amended): provided the added name is fresh — no rule in the list
already bears it — and the list satisfies the sort invariant (as every
reachable engine state does), `add_rule` followed by `remove_rule` of that
name restores the rule list itself, hence the `evaluate` result on every
fixed context bit-for-bit. -/
theorem C6_add_remove_roundtrip (l : List Rule) (name : String) (priority : ℚ)
    (conditions : List (String × CondVal)) (actions : List String)
    (hsorted : sortedDesc l) (hfresh : ∀ r ∈ l, r.name ≠ name) :
    (RuleEngine.removeRule
        (RuleEngine.addRule l name priority conditions actions).1 name).1 = l ∧
    ∀ context : Context,
      RuleEngine.evaluate
          (RuleEngine.removeRule
            (RuleEngine.addRule l name priority conditions actions).1 name).1 context =
        RuleEngine.evaluate l context := by
  have hmain : (RuleEngine.removeRule
      (RuleEngine.addRule l name priority conditions actions).1 name).1 = l := by
    rw [RuleEngine.removeRule, RuleEngine.addRule]
    rw [filter_sortDesc, List.filter_append]
    have h1 : l.filter (fun r => r.name != name) = l :=
      List.filter_eq_self.mpr fun r hr => bne_iff_ne.mpr (hfresh r hr)
    have h2 : List.filter (fun r => r.name != name)
        [({ name := name, enabled := true, priority := priority,
            conditions := conditions, actions := actions } : Rule)] = [] := by
      simp [List.filter_cons]
    rw [h1, h2, List.append_nil, sortDesc_eq_self hsorted]
  exact ⟨hmain, fun context => by rw [hmain]⟩

theorem C6_witness :
    (RuleEngine.removeRule
        (RuleEngine.addRule [dupRule] "fresh" 2 [] ["z"]).1 "fresh").1 = [dupRule] ∧
    RuleEngine.evaluate
        (RuleEngine.removeRule
          (RuleEngine.addRule [dupRule] "fresh" 2 [] ["z"]).1 "fresh").1 demoContext =
      RuleEngine.evaluate [dupRule] demoContext :=
  ⟨(C6_add_remove_roundtrip [dupRule] "fresh" 2 [] ["z"] (by decide) (by decide)).1,
   (C6_add_remove_roundtrip [dupRule] "fresh" 2 [] ["z"] (by decide) (by decide)).2 demoContext⟩

/-- C7 counterexample: `remove_rule` on an unknown name does leave the set
unchanged and does not raise, but it emits exactly the log output of a
successful removal — the same single removal message, no not-found
report — so the unknown-name condition is not observably reported. -/
theorem C7_counterexample :
    (RuleEngine.removeRule ([] : List Rule) "dup").2 =
      (RuleEngine.removeRule [dupRule] "dup").2 ∧
    (RuleEngine.removeRule ([] : List Rule) "dup").1 = ([] : List Rule) ∧
    ∀ m ∈ (RuleEngine.removeRule ([] : List Rule) "dup").2,
      m ≠ LogMsg.ruleNotFound "dup" := by
  refine ⟨rfl, rfl, ?_⟩
  decide

/-- C7 (amended): on a name matching no rule, `enable_rule` and
`remove_rule` each leave the rule set unchanged and never raise;
`enable_rule` observably logs the not-found warning, while `remove_rule`
logs only its generic removal message — indistinguishable from a
successful removal, so only `enable_rule` reports the unknown-name
condition. -/
theorem C7_unknown_name_mutators (rules : List Rule) (name : String) (enable : Bool)
    (hunk : ∀ r ∈ rules, r.name ≠ name) :
    RuleEngine.enableRule rules name enable = (rules, [LogMsg.ruleNotFound name]) ∧
    RuleEngine.removeRule rules name = (rules, [LogMsg.ruleRemoved name]) := by
  constructor
  · induction rules with
    | nil => rfl
    | cons r rs ih =>
      have hr : ¬ (r.name = name) := hunk r (List.mem_cons_self r rs)
      rw [RuleEngine.enableRule, if_neg hr,
        ih fun z hz => hunk z (List.mem_cons_of_mem r hz)]
  · rw [RuleEngine.removeRule]
    rw [List.filter_eq_self.mpr fun r hr => bne_iff_ne.mpr (hunk r hr)]

theorem C7_witness :
    RuleEngine.enableRule [dupRule] "ghost" false =
      ([dupRule], [LogMsg.ruleNotFound "ghost"]) ∧
    RuleEngine.removeRule [dupRule] "ghost" =
      ([dupRule], [LogMsg.ruleRemoved "ghost"]) :=
  C7_unknown_name_mutators [dupRule] "ghost" false (by decide)

/-- C9: the state-threading translations of `evaluate` and
`explain_decision` return the rule list and the context unchanged (the
source bodies contain no assignment to either), and the threaded
`evaluate` computes the same action list as the pure one. -/
theorem C9_evaluate_explain_no_mutation (rules : List Rule) (context : Context) :
    RuleEngine.evaluateM rules context = (rules, context, RuleEngine.evaluate rules context) ∧
    (RuleEngine.explainDecisionM rules context).1 = rules ∧
    (RuleEngine.explainDecisionM rules context).2.1 = context := by
  refine ⟨?_, ?_⟩
  · induction rules with
    | nil => rfl
    | cons r rs ih =>
      rw [RuleEngine.evaluateM, RuleEngine.evaluate]
      cases he : r.enabled <;>
        cases hc : RuleEngine.evaluateConditions r.conditions context <;>
          simp [he, hc, ih]
  · induction rules with
    | nil => exact ⟨rfl, rfl⟩
    | cons r rs ih =>
      rw [RuleEngine.explainDecisionM]
      cases he : r.enabled <;>
        cases hc : RuleEngine.evaluateConditions r.conditions context <;>
          simp [he, hc, ih.1, ih.2]
/-- C2: on an initialized controller whose ultrasonic read returns `d`
with `0 < d < emergency_stop_distance`, `check_safety` issues the
hardware stop command and returns `False` (unsafe); it takes no input
from the decision engine, so this is independent of that cycle's
decision. -/
theorem C2_emergency_stop (r : Robot) (d : ℚ)
    (hinit : r.is_initialized = true)
    (hread : r.ultrasonic = .ok d)
    (hpos : 0 < d)
    (hlt : d < r.config.emergency_stop_distance) :
    (Robot.check_safety r).cmds = [Cmd.pxStop] ∧
    (Robot.check_safety r).safe = false := by
  have hE : ¬ (r.config.emergency_stop_distance = 0) :=
    ne_of_gt (lt_trans hpos hlt)
  have hfst : (Robot.has_obstacle r (some r.config.emergency_stop_distance)).1 =
      { r with last_distance := d } := by
    rw [Robot.has_obstacle, Robot.get_distance]
    simp [hinit, hread]
  have hob : (Robot.has_obstacle r (some r.config.emergency_stop_distance)).2 = true := by
    rw [Robot.has_obstacle, Robot.get_distance]
    simp only [hinit, Bool.true_eq_false, if_false, hread, hE, if_false]
    exact decide_eq_true ⟨hpos, hlt⟩
  rw [Robot.check_safety, if_pos hob]
  refine ⟨?_, rfl⟩
  rw [hfst, Robot.stop]
  simp only [hinit, Bool.true_eq_false, if_false]
  cases hs : r.stop_raises <;> simp

/-- A controller state matching the shipped `ROBOT_CONFIG`, initialized,
with a successful ultrasonic read of 5 cm. -/
def demoRobot : Robot :=
  { is_initialized := true, ultrasonic := .ok 5, last_distance := 0,
    movement_start_time := Option.none, now := 0, stop_raises := false,
    config := { obstacle_distance_threshold := 20, emergency_stop_distance := 10,
                max_continuous_movement := 5 } }

theorem C2_witness :
    (Robot.check_safety demoRobot).cmds = [Cmd.pxStop] ∧
    (Robot.check_safety demoRobot).safe = false :=
  C2_emergency_stop demoRobot 5 rfl rfl (by decide) (by decide)

/-- C10: when the controller is uninitialized or the ultrasonic read
raises, `get_distance` returns 0.0, `has_obstacle` is `False` for every
threshold argument (the check requires a strictly positive distance), and
the emergency-obstacle branch of `check_safety` never fires — a failed or
absent distance sensor reads as no obstacle. -/
theorem C10_failed_sensor_reads_no_obstacle (r : Robot)
    (h : r.is_initialized = false ∨ r.ultrasonic = .error ()) :
    (Robot.get_distance r).2 = 0 ∧
    (∀ threshold, (Robot.has_obstacle r threshold).2 = false) ∧
    SafetyLog.emergencyObstacle ∉ (Robot.check_safety r).logs := by
  have hd : (Robot.get_distance r).2 = 0 := by
    rw [Robot.get_distance]
    rcases h with h | h
    · rw [if_pos h]
    · by_cases hi : r.is_initialized = false
      · rw [if_pos hi]
      · rw [if_neg hi, h]
  have hob : ∀ threshold, (Robot.has_obstacle r threshold).2 = false := by
    intro threshold
    rcases threshold with _ | v <;>
      (rw [Robot.has_obstacle]; simp only [hd]; simp)
  refine ⟨hd, hob, ?_⟩
  have hob' : ¬ ((Robot.has_obstacle r (some r.config.emergency_stop_distance)).2 = true) := by
    rw [hob]
    simp
  rw [Robot.check_safety, if_neg hob']
  split
  · split
    · simp
    · split
      · simp
      · simp
  · simp

/-- `demoRobot` with its ultrasonic read raising an exception. -/
def failedSensorRobot : Robot :=
  { demoRobot with ultrasonic := .error () }

theorem C10_witness :
    (Robot.get_distance failedSensorRobot).2 = 0 ∧
    (Robot.has_obstacle failedSensorRobot (some 20)).2 = false ∧
    SafetyLog.emergencyObstacle ∉ (Robot.check_safety failedSensorRobot).logs :=
  ⟨(C10_failed_sensor_reads_no_obstacle failedSensorRobot (Or.inr rfl)).1,
   (C10_failed_sensor_reads_no_obstacle failedSensorRobot (Or.inr rfl)).2.1 (some 20),
   (C10_failed_sensor_reads_no_obstacle failedSensorRobot (Or.inr rfl)).2.2⟩

/-- C3: when any of the perceive/decide/act/evaluate phase calls raises,
the loop body catches it, logs the error, sleeps the fixed 0.5 s recovery
delay, leaves the whole metrics state — `loop_count`, `avg_loop_time`,
`is_running` — untouched, and the loop goes on to process the remaining
cycles: the exception never terminates the loop. -/
theorem C3_cycle_exception_recovery (c : CycleIn) (cs : List CycleIn) (s : LoopSt)
    (hrun : s.is_running = true)
    (hfail : ∃ e, cyclePhases c = .error e) :
    runCycle c s = (s, [Effect.logCycleError, Effect.sleep recoveryDelay]) ∧
    runLoop (c :: cs) s =
      ((runLoop cs s).1,
        Effect.logCycleError :: Effect.sleep recoveryDelay :: (runLoop cs s).2) := by
  obtain ⟨e, he⟩ := hfail
  have hcycle : runCycle c s = (s, [Effect.logCycleError, Effect.sleep recoveryDelay]) := by
    rw [runCycle, he]
  refine ⟨hcycle, ?_⟩
  rw [runLoop, if_pos hrun, hcycle]
  simp

/-- A cycle whose decide phase raises. -/
def failingCycle : CycleIn :=
  { perceiveR := .ok (), decideR := .error (), actR := .ok (),
    evaluateR := .ok (), loopTime := 1/10 }

/-- A running loop state with some accumulated metrics. -/
def demoLoopSt : LoopSt :=
  { is_running := true, loop_count := 3, avg_loop_time := 1 }

theorem C3_witness :
    runCycle failingCycle demoLoopSt =
      (demoLoopSt, [Effect.logCycleError, Effect.sleep recoveryDelay]) ∧
    runLoop [failingCycle] demoLoopSt =
      ((runLoop [] demoLoopSt).1,
        Effect.logCycleError :: Effect.sleep recoveryDelay :: (runLoop [] demoLoopSt).2) :=
  C3_cycle_exception_recovery failingCycle [] demoLoopSt rfl ⟨(), rfl⟩

/-- C8: the reasoner engine's `evaluate` yields the empty action list when
the backend client never initialized (missing credential or library), when
the provider inference call raises (unreachable backend), and when the
reply is not decodable JSON; its translation is a total function into the
returned value, mirroring the catch-all that keeps every exception from
the caller. -/
theorem C8_llm_failures_yield_empty (e : LLMBackend) :
    (e.clientInitialized = false → LLMEngine.evaluate e = JVal.arr []) ∧
    (e.callOpenai = .error () → e.callAnthropic = .error () →
      LLMEngine.evaluate e = JVal.arr []) ∧
    ((∀ s, e.loads s = Option.none) → LLMEngine.evaluate e = JVal.arr []) := by
  refine ⟨fun hc => ?_, fun ho ha => ?_, fun hl => ?_⟩
  · rw [LLMEngine.evaluate, if_pos hc]
  · rw [LLMEngine.evaluate]
    by_cases hc : e.clientInitialized = false
    · rw [if_pos hc]
    · rw [if_neg hc]
      by_cases hp : e.provider = "openai"
      · rw [if_pos hp, ho]
        rfl
      · rw [if_neg hp]
        by_cases hq : e.provider = "anthropic"
        · rw [if_pos hq, ha]
          rfl
        · rw [if_neg hq]
  · rw [LLMEngine.evaluate]
    by_cases hc : e.clientInitialized = false
    · rw [if_pos hc]
    · rw [if_neg hc]
      by_cases hp : e.provider = "openai"
      · rw [if_pos hp]
        rcases hr : e.callOpenai with err | resp
        · rfl
        · simp [Except.bind, hl, LLMEngine.parseResponse]
      · rw [if_neg hp]
        by_cases hq : e.provider = "anthropic"
        · rw [if_pos hq]
          rcases hr : e.callAnthropic with err | resp
          · rfl
          · simp [Except.bind, hl, LLMEngine.parseResponse]
        · rw [if_neg hq]

/-- A backend whose client never initialized (no credential). -/
def llmClientDown : LLMBackend :=
  { clientInitialized := false, provider := "openai",
    callOpenai := .error (), callAnthropic := .error (),
    loads := fun _ => Option.none }

/-- An initialized backend whose inference calls raise (unreachable). -/
def llmUnreachable : LLMBackend :=
  { clientInitialized := true, provider := "openai",
    callOpenai := .error (), callAnthropic := .error (),
    loads := fun _ => Option.none }

/-- An initialized backend that replies with undecodable JSON. -/
def llmGarbledReply : LLMBackend :=
  { clientInitialized := true, provider := "openai",
    callOpenai := .ok "not json", callAnthropic := .error (),
    loads := fun _ => Option.none }

theorem C8_witness :
    LLMEngine.evaluate llmClientDown = JVal.arr [] ∧
    LLMEngine.evaluate llmUnreachable = JVal.arr [] ∧
    LLMEngine.evaluate llmGarbledReply = JVal.arr [] :=
  ⟨(C8_llm_failures_yield_empty llmClientDown).1 rfl,
   (C8_llm_failures_yield_empty llmUnreachable).2.1 rfl rfl,
   (C8_llm_failures_yield_empty llmGarbledReply).2.2 fun _ => rfl⟩
